import Mathlib

/-!
# Dark: the frame scorer `update_frame`

Shallow embedding of `src/cpp/game.cpp`:

```
int update_frame(int delta_ms) {
    // simple logic: award 1 point per 10ms
    return delta_ms / 10;
}
```

`int` is the signed 32-bit integer of the exported signature `(int32) -> int32`.
Values of type `int` are modelled as mathematical integers together with the
range predicate `isInt32`.  The C++ operator `/` on `int` truncates toward zero
and has no result when the divisor is zero or when the quotient is not
representable; it is modelled by `int_div`, which returns `none` there.

For the properties about storage and sequences of calls the text of the
function is also kept as a syntax tree, `update_frame_def`, run by an
interpreter in which identifiers may denote variables with static storage and
assignments may write to them; `call_update_frame_def` relates the two.
-/

namespace Dark

/-! ## Machine integers -/

/-- Smallest value of a signed 32-bit integer. -/
def INT32_MIN : Int := -2147483648

/-- Largest value of a signed 32-bit integer. -/
def INT32_MAX : Int := 2147483647

/-- The integer `x` is representable as a signed 32-bit integer. -/
def isInt32 (x : Int) : Prop := INT32_MIN ≤ x ∧ x ≤ INT32_MAX

instance (x : Int) : Decidable (isInt32 x) := by
  unfold isInt32; infer_instance

/-- Reduction of an integer modulo 2^32 to the signed 32-bit range (wraparound). -/
def wrap32 (x : Int) : Int := (x + 2147483648) % 4294967296 - 2147483648

/-- The C++ operator `/` on two `int` operands: the algebraic quotient with the
fractional part discarded (truncation toward zero).  There is no result when the
divisor is zero or when the quotient is not representable in `int`. -/
def int_div (a b : Int) : Option Int :=
  if b = 0 then none
  else if isInt32 (Int.tdiv a b) then some (Int.tdiv a b)
  else none

/-! ## The program -/

/-- The exported function of `game.cpp`: `return delta_ms / 10;`. -/
def update_frame (delta_ms : Int) : Option Int :=
  int_div delta_ms 10

/-! ## The program text and its execution

To state what a call does to storage outside of it, the text of the function is
also kept as a syntax tree and run by an interpreter of the C++ fragment it is
written in.  In that fragment an identifier denotes the parameter of the
enclosing function when it has the parameter's name and a variable with static
storage otherwise, and an assignment writes to the one or to the other. -/

/-- Values of the variables with static storage, by name: the storage that
outlives a call. -/
abbrev Store := String → Int

/-- Integer expressions: a literal, an identifier, a division `a / b`. -/
inductive Expr where
  | lit (n : Int)
  | var (x : String)
  | div (a b : Expr)

/-- Statements of a function body: `return e;`, or `x = e;` followed by the
rest of the body. -/
inductive Stmt where
  | ret (e : Expr)
  | assign (x : String) (e : Expr) (next : Stmt)

/-- A function of one `int` parameter: the parameter's name and the body. -/
structure FunDef where
  param : String
  body : Stmt

/-- Value of an expression in a call with parameter `p` bound to `arg`, over
the store `g`.  An identifier is the parameter when it is named `p` and is read
from the store otherwise; division is `int_div`. -/
def eval (p : String) (arg : Int) (g : Store) : Expr → Option Int
  | Expr.lit n => some n
  | Expr.var x => some (if x = p then arg else g x)
  | Expr.div a b =>
    match eval p arg g a, eval p arg g b with
    | some x, some y => int_div x y
    | _, _ => none

/-- Execution of a body: the store when the function returns, and the returned
value.  An assignment to the parameter changes the parameter, any other
assignment changes the store. -/
def exec (p : String) : Stmt → Int → Store → Option (Store × Int)
  | Stmt.ret e, arg, g =>
    match eval p arg g e with
    | some v => some (g, v)
    | none => none
  | Stmt.assign x e next, arg, g =>
    match eval p arg g e with
    | some v =>
      if x = p then exec p next v g
      else exec p next arg (fun y => if y = x then v else g y)
    | none => none

/-- One call of `f` with argument `arg` over the store `g`. -/
def call (f : FunDef) (g : Store) (arg : Int) : Option (Store × Int) :=
  exec f.param f.body arg g

/-- A sequence of calls of `f` made one after the other, each over the store the
previous one left; gives the final store and the returned values in order. -/
def run_calls (f : FunDef) : Store → List Int → Option (Store × List Int)
  | g, [] => some (g, [])
  | g, d :: ds =>
    match call f g d with
    | none => none
    | some (g1, v) =>
      match run_calls f g1 ds with
      | none => none
      | some (g2, vs) => some (g2, v :: vs)

/-- The text of `game.cpp`: `int update_frame(int delta_ms) { return delta_ms / 10; }`. -/
def update_frame_def : FunDef :=
  FunDef.mk "delta_ms" (Stmt.ret (Expr.div (Expr.var "delta_ms") (Expr.lit 10)))

/-- A body that is not in `game.cpp`, kept for comparison only:
`return score / 10;` with `score` a variable with static storage. -/
def reads_global_def : FunDef :=
  FunDef.mk "delta_ms" (Stmt.ret (Expr.div (Expr.var "score") (Expr.lit 10)))

/-- A body that is not in `game.cpp`, kept for comparison only:
`score = delta_ms; return delta_ms / 10;`. -/
def writes_global_def : FunDef :=
  FunDef.mk "delta_ms" (Stmt.assign "score" (Expr.var "delta_ms")
    (Stmt.ret (Expr.div (Expr.var "delta_ms") (Expr.lit 10))))

/-! ## Auxiliary facts about truncated division by ten -/

/-- Truncated division by ten, expressed with the Euclidean division that
linear arithmetic understands. -/
theorem tdiv_ten (d : Int) :
    Int.tdiv d 10 = if 0 ≤ d then d / 10 else -((-d) / 10) := by
  split
  · next h => exact Int.tdiv_eq_ediv h (by decide)
  · next h =>
    have h1 : (0 : Int) ≤ -d := by omega
    have h2 : Int.tdiv (-d) 10 = (-d) / 10 := Int.tdiv_eq_ediv h1 (by decide)
    have h3 : Int.tdiv (-d) 10 = -(Int.tdiv d 10) := Int.neg_tdiv d 10
    omega

/-- On a 32-bit input the division of `update_frame` always has a result, the
truncated quotient. -/
theorem update_frame_eq (d : Int) (h : isInt32 d) :
    update_frame d = some (Int.tdiv d 10) := by
  have hq : isInt32 (Int.tdiv d 10) := by
    rw [tdiv_ten]
    unfold isInt32 INT32_MIN INT32_MAX at *
    split <;> omega
  simp [update_frame, int_div, hq]

/-- On a non-negative 32-bit input `update_frame` returns the Euclidean
quotient by ten. -/
theorem update_frame_nonneg (d : Int) (h : isInt32 d) (h0 : 0 ≤ d) :
    update_frame d = some (d / 10) := by
  rw [update_frame_eq d h, tdiv_ten, if_pos h0]

/-- Running the text of `update_frame` gives what the function `update_frame`
gives, and hands the store back as received. -/
theorem call_update_frame_def (g : Store) (d : Int) :
    call update_frame_def g d = (update_frame d).map (fun v => (g, v)) := by
  simp only [call, update_frame_def, exec, eval, if_true]
  show (match int_div d 10 with
    | some v => some (g, v)
    | none => none) = (update_frame d).map (fun v => (g, v))
  unfold update_frame
  cases int_div d 10 <;> rfl

/-- A call of the text of `update_frame` on a 32-bit argument returns the
truncated quotient over an unchanged store. -/
theorem call_update_frame_int32 (g : Store) (d : Int) (h : isInt32 d) :
    call update_frame_def g d = some (g, Int.tdiv d 10) := by
  rw [call_update_frame_def, update_frame_eq d h]
  rfl

/-- A sequence of calls of the text of `update_frame` on 32-bit arguments
returns the truncated quotients in order, over an unchanged store. -/
theorem run_calls_update_frame (g : Store) (ds : List Int)
    (h : ∀ d ∈ ds, isInt32 d) :
    run_calls update_frame_def g ds = some (g, ds.map (fun d => Int.tdiv d 10)) := by
  induction ds with
  | nil => rfl
  | cons d ds ih =>
    have hd : isInt32 d := h d (List.mem_cons_self d ds)
    have hds : ∀ x ∈ ds, isInt32 x := fun x hx => h x (List.mem_cons_of_mem d hx)
    simp only [run_calls, call_update_frame_int32 g d hd, ih hds, List.map_cons]

/-- The interpreter tells a body that reads a variable with static storage from
one that does not: `reads_global_def` returns different values for the same
argument over two stores. -/
theorem reads_global_depends_on_store :
    call reads_global_def (fun _ => 0) 25 = some ((fun _ => 0), 0) ∧
    call reads_global_def (fun _ => 70) 25 = some ((fun _ => 70), 7) := by
  have h0 : int_div 0 10 = some 0 := by decide
  have h70 : int_div 70 10 = some 7 := by decide
  constructor
  · simp [call, reads_global_def, exec, eval, h0]
  · simp [call, reads_global_def, exec, eval, h70]

/-- The interpreter tells a body that assigns a variable with static storage
from one that does not: after a call of `writes_global_def` the store holds
the argument. -/
theorem writes_global_changes_store :
    ∃ g1 : Store, call writes_global_def (fun _ => 0) 25 = some (g1, 2) ∧
      g1 "score" = 25 := by
  have h25 : int_div 25 10 = some 2 := by decide
  refine ⟨fun y => if y = "score" then 25 else 0, ?_, ?_⟩
  · simp [call, writes_global_def, exec, eval, h25]
  · simp

/-! ## Settled properties of `update_frame` -/

/-- C1 (floor law): for every signed 32-bit `d` with `d ≥ 0`, `update_frame d`
returns the floor of `d / 10`, which is the unique integer `q` with
`10 * q ≤ d < 10 * q + 10`. -/
theorem update_frame_floor_law (d : Int) (h : isInt32 d) (h0 : 0 ≤ d) :
    update_frame d = some (Int.fdiv d 10) ∧
    update_frame d = some ⌊(d : ℚ) / 10⌋ ∧
    (10 * Int.fdiv d 10 ≤ d ∧ d < 10 * Int.fdiv d 10 + 10) ∧
    ∀ q : Int, (10 * q ≤ d ∧ d < 10 * q + 10) ↔ update_frame d = some q := by
  have hf : Int.fdiv d 10 = d / 10 := Int.fdiv_eq_ediv d (by decide)
  have hr : ⌊(d : ℚ) / 10⌋ = d / 10 := by
    have := Rat.floor_intCast_div_natCast d 10
    simpa using this
  rw [update_frame_nonneg d h h0, hf, hr]
  refine ⟨rfl, rfl, by omega, fun q => ?_⟩
  rw [Option.some_inj]
  omega

/-- Instance of the floor law at `d = 25`. -/
theorem update_frame_floor_law_witness :
    update_frame 25 = some (Int.fdiv 25 10) ∧
    update_frame 25 = some ⌊((25 : Int) : ℚ) / 10⌋ ∧
    (10 * Int.fdiv 25 10 ≤ 25 ∧ 25 < 10 * Int.fdiv 25 10 + 10) ∧
    ∀ q : Int, (10 * q ≤ 25 ∧ 25 < 10 * q + 10) ↔ update_frame 25 = some q :=
  update_frame_floor_law 25 (by decide) (by decide)

/-- C2 (monotonicity): for signed 32-bit `d1`, `d2` with `0 ≤ d1 ≤ d2`, both
calls return and the result for `d1` is at most the result for `d2`. -/
theorem update_frame_monotone (d1 d2 : Int) (h1 : isInt32 d1) (h2 : isInt32 d2)
    (h0 : 0 ≤ d1) (h12 : d1 ≤ d2) :
    ∃ q1 q2 : Int, update_frame d1 = some q1 ∧ update_frame d2 = some q2 ∧ q1 ≤ q2 := by
  refine ⟨d1 / 10, d2 / 10, update_frame_nonneg d1 h1 h0,
    update_frame_nonneg d2 h2 (by omega), by omega⟩

/-- Instance of monotonicity at `d1 = 9`, `d2 = 10`. -/
theorem update_frame_monotone_witness :
    ∃ q1 q2 : Int, update_frame 9 = some q1 ∧ update_frame 10 = some q2 ∧ q1 ≤ q2 :=
  update_frame_monotone 9 10 (by decide) (by decide) (by decide) (by decide)

/-- C3 (boundary steps): `update_frame d = 0` for every `d` in `[0, 9]` and
`update_frame d = 1` for every `d` in `[10, 19]`; in particular the values at
0, 9, 10, 19 and 20 are 0, 0, 1, 1 and 2. -/
theorem update_frame_boundary_steps :
    (∀ d : Int, 0 ≤ d → d ≤ 9 → update_frame d = some 0) ∧
    (∀ d : Int, 10 ≤ d → d ≤ 19 → update_frame d = some 1) ∧
    update_frame 0 = some 0 ∧ update_frame 9 = some 0 ∧
    update_frame 10 = some 1 ∧ update_frame 19 = some 1 ∧
    update_frame 20 = some 2 := by
  have key : ∀ (d q : Int), 0 ≤ d → d ≤ 20 → d / 10 = q → update_frame d = some q := by
    intro d q hd0 hd1 hq
    have hd : isInt32 d := by
      unfold isInt32 INT32_MIN INT32_MAX; omega
    rw [update_frame_nonneg d hd hd0, hq]
  refine ⟨fun d h0 h9 => key d 0 h0 (by omega) (by omega),
    fun d h10 h19 => key d 1 (by omega) (by omega) (by omega),
    key 0 0 (by decide) (by decide) (by decide), key 9 0 (by decide) (by decide) (by decide),
    key 10 1 (by decide) (by decide) (by decide), key 19 1 (by decide) (by decide) (by decide),
    key 20 2 (by decide) (by decide) (by decide)⟩

/-- Instances of the boundary steps inside the two intervals, at 7 and at 13. -/
theorem update_frame_boundary_steps_witness :
    update_frame 7 = some 0 ∧ update_frame 13 = some 1 :=
  ⟨update_frame_boundary_steps.1 7 (by decide) (by decide),
   update_frame_boundary_steps.2.1 13 (by decide) (by decide)⟩

/-- C4 (scenarios A to D): `update_frame` maps 0 to 0, 25 to 2, 100 to 10 and
9999 to 999. -/
theorem update_frame_scenarios :
    update_frame 0 = some 0 ∧ update_frame 25 = some 2 ∧
    update_frame 100 = some 10 ∧ update_frame 9999 = some 999 := by
  refine ⟨?_, ?_, ?_, ?_⟩ <;> decide

/-- C5 (totality without overflow): for every signed 32-bit `delta_ms` the call
returns (there is no error outcome), the returned value is the quotient
truncated toward zero, that quotient lies between -214748364 and 214748364 and
so inside the 32-bit range, and reducing it to 32 bits changes nothing; the two
extreme inputs `INT32_MIN` and `INT32_MAX` give -214748364 and 214748364. -/
theorem update_frame_total_no_overflow :
    (∀ delta_ms : Int, isInt32 delta_ms →
      update_frame delta_ms ≠ none ∧
      update_frame delta_ms = some (Int.tdiv delta_ms 10) ∧
      (-214748364 ≤ Int.tdiv delta_ms 10 ∧ Int.tdiv delta_ms 10 ≤ 214748364) ∧
      isInt32 (Int.tdiv delta_ms 10) ∧
      wrap32 (Int.tdiv delta_ms 10) = Int.tdiv delta_ms 10) ∧
    update_frame INT32_MIN = some (-214748364) ∧
    update_frame INT32_MAX = some 214748364 := by
  refine ⟨fun d h => ?_, by decide, by decide⟩
  have he := update_frame_eq d h
  have hb : -214748364 ≤ Int.tdiv d 10 ∧ Int.tdiv d 10 ≤ 214748364 := by
    rw [tdiv_ten]
    unfold isInt32 INT32_MIN INT32_MAX at h
    split <;> omega
  refine ⟨by rw [he]; exact Option.some_ne_none _, he, hb, ?_, ?_⟩
  · unfold isInt32 INT32_MIN INT32_MAX; omega
  · unfold wrap32; omega

/-- Instance of totality at the most negative input. -/
theorem update_frame_total_no_overflow_witness :
    update_frame (-2147483648) ≠ none ∧
    update_frame (-2147483648) = some (Int.tdiv (-2147483648) 10) ∧
    (-214748364 ≤ Int.tdiv (-2147483648) 10 ∧ Int.tdiv (-2147483648) 10 ≤ 214748364) ∧
    isInt32 (Int.tdiv (-2147483648) 10) ∧
    wrap32 (Int.tdiv (-2147483648) 10) = Int.tdiv (-2147483648) 10 :=
  update_frame_total_no_overflow.1 (-2147483648) (by decide)

/-- C6 (non-negative output): for every signed 32-bit `delta_ms ≥ 0` the call
returns a value `p` with `0 ≤ p ≤ delta_ms`. -/
theorem update_frame_output_range (delta_ms : Int) (h : isInt32 delta_ms)
    (h0 : 0 ≤ delta_ms) :
    ∃ p : Int, update_frame delta_ms = some p ∧ 0 ≤ p ∧ p ≤ delta_ms :=
  ⟨delta_ms / 10, update_frame_nonneg delta_ms h h0, by omega, by omega⟩

/-- Instance of the output range at `delta_ms = 16`. -/
theorem update_frame_output_range_witness :
    ∃ p : Int, update_frame 16 = some p ∧ 0 ≤ p ∧ p ≤ 16 :=
  update_frame_output_range 16 (by decide) (by decide)

/-- C7 (determinism and order-independence): run on signed 32-bit arguments
over any store, the text of `update_frame` returns, leaves the store as it found
it and returns the value of `update_frame`, whatever the store holds; so a call
over another store returns the same value, every sequence of calls returns for
each argument the value of a single call with that argument and ends over the
store it started from, and calling with `a` before `b` returns for `b` what
calling with `b` alone returns, and the same with the roles exchanged. -/
theorem update_frame_deterministic_order_independent
    (g g2 : Store) (ds : List Int) (a b : Int)
    (hds : ∀ d ∈ ds, isInt32 d) (ha : isInt32 a) (hb : isInt32 b) :
    (∃ va vb : Int,
      update_frame a = some va ∧ update_frame b = some vb ∧
      call update_frame_def g a = some (g, va) ∧
      call update_frame_def g2 a = some (g2, va) ∧
      call update_frame_def g b = some (g, vb) ∧
      run_calls update_frame_def g [a, a] = some (g, [va, va]) ∧
      run_calls update_frame_def g [a, b] = some (g, [va, vb]) ∧
      run_calls update_frame_def g [b, a] = some (g, [vb, va]) ∧
      run_calls update_frame_def g [a] = some (g, [va]) ∧
      run_calls update_frame_def g [b] = some (g, [vb])) ∧
    (∃ vs : List Int,
      run_calls update_frame_def g ds = some (g, vs) ∧
      List.Forall₂ (fun d v => update_frame d = some v ∧
        call update_frame_def g2 d = some (g2, v)) ds vs) := by
  have two : ∀ x y : Int, isInt32 x → isInt32 y →
      run_calls update_frame_def g [x, y] = some (g, [Int.tdiv x 10, Int.tdiv y 10]) := by
    intro x y hx hy
    refine run_calls_update_frame g [x, y] (fun d hd => ?_)
    rcases List.mem_pair.mp hd with h | h <;> subst h <;> assumption
  have one : ∀ x : Int, isInt32 x →
      run_calls update_frame_def g [x] = some (g, [Int.tdiv x 10]) := by
    intro x hx
    refine run_calls_update_frame g [x] (fun d hd => ?_)
    rw [List.mem_singleton.mp hd]
    exact hx
  refine ⟨⟨Int.tdiv a 10, Int.tdiv b 10, update_frame_eq a ha, update_frame_eq b hb,
    call_update_frame_int32 g a ha, call_update_frame_int32 g2 a ha,
    call_update_frame_int32 g b hb, two a a ha ha, two a b ha hb, two b a hb ha,
    one a ha, one b hb⟩,
    ⟨ds.map (fun d => Int.tdiv d 10), run_calls_update_frame g ds hds, ?_⟩⟩
  rw [List.forall₂_map_right_iff, List.forall₂_same]
  exact fun d hd => ⟨update_frame_eq d (hds d hd), call_update_frame_int32 g2 d (hds d hd)⟩

/-- Instance of determinism and order-independence: over a store of zeros and
a store of sevens, the sequence of calls with 25, -15, 25 and the two calls with
5 and 100. -/
theorem update_frame_deterministic_order_independent_witness :
    (∃ va vb : Int,
      update_frame 5 = some va ∧ update_frame 100 = some vb ∧
      call update_frame_def (fun _ => 0) 5 = some ((fun _ => 0), va) ∧
      call update_frame_def (fun _ => 7) 5 = some ((fun _ => 7), va) ∧
      call update_frame_def (fun _ => 0) 100 = some ((fun _ => 0), vb) ∧
      run_calls update_frame_def (fun _ => 0) [5, 5] = some ((fun _ => 0), [va, va]) ∧
      run_calls update_frame_def (fun _ => 0) [5, 100] = some ((fun _ => 0), [va, vb]) ∧
      run_calls update_frame_def (fun _ => 0) [100, 5] = some ((fun _ => 0), [vb, va]) ∧
      run_calls update_frame_def (fun _ => 0) [5] = some ((fun _ => 0), [va]) ∧
      run_calls update_frame_def (fun _ => 0) [100] = some ((fun _ => 0), [vb])) ∧
    (∃ vs : List Int,
      run_calls update_frame_def (fun _ => 0) [25, -15, 25] = some ((fun _ => 0), vs) ∧
      List.Forall₂ (fun d v => update_frame d = some v ∧
        call update_frame_def (fun _ => 7) d = some ((fun _ => 7), v)) [25, -15, 25] vs) :=
  update_frame_deterministic_order_independent (fun _ => 0) (fun _ => 7) [25, -15, 25] 5 100
    (by decide) (by decide) (by decide)

/-- C8 (truncation toward zero on the whole input type): for every signed 32-bit
`delta` the call returns `sign delta * floor (|delta| / 10)`, the quotient
rounded toward zero; it returns 0 on `[-9, -1]` and -1 at -15; and the result
differs from `floor (delta / 10)` exactly when `delta` is negative and not a
multiple of 10. -/
theorem update_frame_truncates_toward_zero :
    (∀ delta : Int, isInt32 delta →
      update_frame delta = some (Int.sign delta * ((Int.natAbs delta / 10 : Nat) : Int)) ∧
      (update_frame delta ≠ some (Int.fdiv delta 10) ↔ (delta < 0 ∧ ¬ (10 : Int) ∣ delta)) ∧
      (update_frame delta ≠ some ⌊(delta : ℚ) / 10⌋ ↔ (delta < 0 ∧ ¬ (10 : Int) ∣ delta))) ∧
    (∀ d : Int, -9 ≤ d → d ≤ -1 → update_frame d = some 0) ∧
    update_frame (-15) = some (-1) := by
  have hfloor : ∀ d : Int, ⌊(d : ℚ) / 10⌋ = d / 10 := by
    intro d
    have := Rat.floor_intCast_div_natCast d 10
    simpa using this
  refine ⟨fun d h => ?_, fun d h9 h1 => ?_, by decide⟩
  · have hf : Int.fdiv d 10 = d / 10 := Int.fdiv_eq_ediv d (by decide)
    have ht := tdiv_ten d
    rw [update_frame_eq d h, hf, hfloor d]
    refine ⟨?_, ?_, ?_⟩
    · congr 1
      have hc : ((Int.natAbs d / 10 : Nat) : Int) = (Int.natAbs d : Int) / 10 :=
        Int.ofNat_ediv _ _
      rw [hc, ht]
      rcases lt_trichotomy d 0 with hd | hd | hd
      · have hn : (Int.natAbs d : Int) = -d := by omega
        rw [Int.sign_eq_neg_one_of_neg hd, if_neg (by omega), hn]
        omega
      · subst hd
        decide
      · have hn : (Int.natAbs d : Int) = d := by omega
        rw [Int.sign_eq_one_of_pos hd, if_pos (by omega), hn]
        omega
    · rw [ne_eq, Option.some_inj, ht]
      split <;> omega
    · rw [ne_eq, Option.some_inj, ht]
      split <;> omega
  · have hd : isInt32 d := by
      unfold isInt32 INT32_MIN INT32_MAX; omega
    rw [update_frame_eq d hd, tdiv_ten d, if_neg (by omega)]
    congr 1
    omega

/-- Instance of truncation toward zero at `delta = -15` and inside `[-9, -1]`
at `d = -4`. -/
theorem update_frame_truncates_toward_zero_witness :
    (update_frame (-15)
        = some (Int.sign (-15) * ((Int.natAbs (-15) / 10 : Nat) : Int)) ∧
      (update_frame (-15) ≠ some (Int.fdiv (-15) 10) ↔
        ((-15 : Int) < 0 ∧ ¬ (10 : Int) ∣ -15)) ∧
      (update_frame (-15) ≠ some ⌊((-15 : Int) : ℚ) / 10⌋ ↔
        ((-15 : Int) < 0 ∧ ¬ (10 : Int) ∣ -15))) ∧
    update_frame (-4) = some 0 :=
  ⟨update_frame_truncates_toward_zero.1 (-15) (by decide),
   update_frame_truncates_toward_zero.2.1 (-4) (by decide) (by decide)⟩

/-- C9 (fixed linear rate): for every signed 32-bit `d` with
`0 ≤ d ≤ INT32_MAX - 10` the call at `d + 10` returns one more than the call at
`d`; more generally for every `k ≥ 0` with `d + 10 * k ≤ INT32_MAX` the call at
`d + 10 * k` returns `k` more than the call at `d`. -/
theorem update_frame_linear_rate (d : Int) (h : isInt32 d) (h0 : 0 ≤ d) :
    ∃ q : Int, update_frame d = some q ∧
      (d ≤ INT32_MAX - 10 → update_frame (d + 10) = some (q + 1)) ∧
      (∀ k : Int, 0 ≤ k → d + 10 * k ≤ INT32_MAX →
        update_frame (d + 10 * k) = some (q + k)) := by
  refine ⟨d / 10, update_frame_nonneg d h h0, fun hd => ?_, fun k hk hd => ?_⟩
  · have h10 : isInt32 (d + 10) := by
      unfold isInt32 INT32_MIN INT32_MAX at *; omega
    rw [update_frame_nonneg (d + 10) h10 (by omega)]
    congr 1
    omega
  · have hk10 : isInt32 (d + 10 * k) := by
      unfold isInt32 INT32_MIN INT32_MAX at *; omega
    rw [update_frame_nonneg (d + 10 * k) hk10 (by omega)]
    congr 1
    omega

/-- Instance of the linear rate at `d = 7`, with one step of 10 and with
`k = 3`. -/
theorem update_frame_linear_rate_witness :
    update_frame 7 = some 0 ∧ update_frame (7 + 10) = some (0 + 1) ∧
    update_frame (7 + 10 * 3) = some (0 + 3) := by
  obtain ⟨q, hq, h1, hk⟩ := update_frame_linear_rate 7 (by decide) (by decide)
  have hq0 : q = 0 := by
    have : update_frame 7 = some 0 := by decide
    rw [this] at hq
    exact (Option.some_inj.mp hq).symm
  subst hq0
  exact ⟨hq, h1 (by decide), hk 3 (by decide) (by decide)⟩

/-- C10 (frame-splitting loss bound): for signed 32-bit `a ≥ 0`, `b ≥ 0` with
`a + b ≤ INT32_MAX`, the three calls at `a`, `b` and `a + b` return, and the sum
of the per-frame points is at most the points for the total time, which is at
most that sum plus one. -/
theorem update_frame_split_bound (a b : Int) (ha : isInt32 a) (hb : isInt32 b)
    (ha0 : 0 ≤ a) (hb0 : 0 ≤ b) (hab : a + b ≤ INT32_MAX) :
    ∃ pa pb pab : Int, update_frame a = some pa ∧ update_frame b = some pb ∧
      update_frame (a + b) = some pab ∧ pa + pb ≤ pab ∧ pab ≤ pa + pb + 1 := by
  have hs : isInt32 (a + b) := by
    unfold isInt32 INT32_MIN INT32_MAX at *; omega
  exact ⟨a / 10, b / 10, (a + b) / 10, update_frame_nonneg a ha ha0,
    update_frame_nonneg b hb hb0, update_frame_nonneg (a + b) hs (by omega),
    by omega, by omega⟩

/-- Instance of the split bound at `a = 15`, `b = 16`, where one point is lost. -/
theorem update_frame_split_bound_witness :
    ∃ pa pb pab : Int, update_frame 15 = some pa ∧ update_frame 16 = some pb ∧
      update_frame (15 + 16) = some pab ∧ pa + pb ≤ pab ∧ pab ≤ pa + pb + 1 :=
  update_frame_split_bound 15 16 (by decide) (by decide) (by decide) (by decide) (by decide)

/-- C11 (monotonicity on the whole input type): for all signed 32-bit
`d1 ≤ d2`, negative values included, both calls return and the result for `d1`
is at most the result for `d2`. -/
theorem update_frame_monotone_all (d1 d2 : Int) (h1 : isInt32 d1) (h2 : isInt32 d2)
    (h12 : d1 ≤ d2) :
    ∃ q1 q2 : Int, update_frame d1 = some q1 ∧ update_frame d2 = some q2 ∧ q1 ≤ q2 := by
  refine ⟨Int.tdiv d1 10, Int.tdiv d2 10, update_frame_eq d1 h1, update_frame_eq d2 h2, ?_⟩
  rw [tdiv_ten d1, tdiv_ten d2]
  split <;> split <;> omega

/-- Instance of monotonicity across the sign change, at `d1 = -15`, `d2 = 7`. -/
theorem update_frame_monotone_all_witness :
    ∃ q1 q2 : Int, update_frame (-15) = some q1 ∧ update_frame 7 = some q2 ∧ q1 ≤ q2 :=
  update_frame_monotone_all (-15) 7 (by decide) (by decide) (by decide)

end Dark
